import Mathlib

/-!
Shallow embedding of the jacquard image processor
(`img2jacquard.py` and the palette-inference routine of `gui.py`),
together with proofs of the specified encoding, inference and
error-handling laws.

Colors are RGB triples of naturals; a pixel grid is its list of rows in
raster order.  Python exceptions are modelled by `Except PyError`;
`numpy` randomness (`np.random.choice(3, ...)`) is modelled by an
explicit index-sampling function `Nat → Nat → Fin 3`.
-/

/-- An RGB color: an ordered triple of channel values. -/
abbrev Color := Nat × Nat × Nat

/-- Blue `(0,0,255)`: the BACKGROUND symbol of the output alphabet. -/
def BLUE : Color := (0, 0, 255)

/-- Red `(255,0,0)`: the FRONT_ONLY symbol. -/
def RED : Color := (255, 0, 0)

/-- Green `(0,255,0)`: the BACK_ONLY symbol. -/
def GREEN : Color := (0, 255, 0)

/-- Yellow `(255,255,0)`: the BOTH symbol. -/
def YELLOW : Color := (255, 255, 0)

/-- The module-level default `color_order` palette of `img2jacquard.py`. -/
def default_color_order : List Color := [(1, 194, 83), (12, 88, 17), (255, 142, 246)]

/-- A pixel grid: the list of its rows, each row a list of colors, in
raster (row-major) order.  Mirrors an `np.ndarray` of shape `(H, W, 3)`. -/
structure Grid where
  rows : List (List Color)
deriving DecidableEq

namespace Grid

/-- Height of the grid (`shape[0]`). -/
def height (g : Grid) : Nat := g.rows.length

/-- Width of the grid (`shape[1]`); an empty grid has width `0`. -/
def width (g : Grid) : Nat := (g.rows.headD []).length

/-- The cell at row `r`, column `c` (out-of-range reads give `(0,0,0)`;
all theorems constrain indices to be in range). -/
def cell (g : Grid) (r c : Nat) : Color := (g.rows.getD r []).getD c (0, 0, 0)

/-- All pixels of the grid in raster (row-major) order, as produced by
`img.reshape(-1, 3)`. -/
def pixels (g : Grid) : List Color := g.rows.flatten

/-- The grid is rectangular: every row has length `width` (automatic for
`numpy` arrays, an explicit invariant for the list model). -/
def Rect (g : Grid) : Prop := ∀ row ∈ g.rows, row.length = g.width

instance (g : Grid) : Decidable g.Rect := by
  unfold Rect; infer_instance

end Grid

/-- Python exceptions relevant to the embedded code. -/
inductive PyError where
  /-- A failed `assert` statement (Python `AssertionError`, no message). -/
  | assertionError : PyError
  /-- A `ValueError` carrying its message string. -/
  | valueError : String → PyError
  /-- A `numpy` out-of-bounds fancy-indexing `IndexError`. -/
  | indexError : PyError
deriving DecidableEq

/-- The fixed error raised by Python's `tuple.index` when the element is
absent; the message names neither the element nor any position. -/
def tupleIndexError : PyError := .valueError "tuple.index(x): x not in tuple"

/-- Index of the first occurrence of `c` in `l`, if any. -/
def firstIndex (c : Color) : List Color → Option Nat
  | [] => none
  | x :: xs => if x = c then some 0 else (firstIndex c xs).map (· + 1)

/-- Python's `tuple.index`: the first index of `c` in `l`, or a
`ValueError` with a fixed message when `c` is absent. -/
def tupleIndex (l : List Color) (c : Color) : Except PyError Nat :=
  match firstIndex c l with
  | some i => .ok i
  | none => .error tupleIndexError

/-- Left-to-right effectful map over `Except`: the first error wins. -/
def exMap {α β E : Type} (f : α → Except E β) : List α → Except E (List β)
  | [] => .ok []
  | x :: xs =>
    match f x with
    | .error e => .error e
    | .ok y =>
      match exMap f xs with
      | .error e => .error e
      | .ok ys => .ok (y :: ys)

/-- The body of the `img2jacquard` loop for one source pixel: the
column's 3-row output group.  The group starts all-BLUE; if the front
and back colors agree the palette offset of that color is set to
YELLOW, otherwise the front color's offset is set to RED and then the
back color's offset is set to GREEN (in that order, so on an index
collision GREEN overwrites RED). -/
def pixelGroup (color_order : List Color) (f b : Color) : Except PyError (List Color) :=
  if f = b then
    match tupleIndex color_order f with
    | .error e => .error e
    | .ok p => .ok (([BLUE, BLUE, BLUE]).set p YELLOW)
  else
    match tupleIndex color_order f with
    | .error e => .error e
    | .ok pf =>
      match tupleIndex color_order b with
      | .error e => .error e
      | .ok pb => .ok ((([BLUE, BLUE, BLUE]).set pf RED).set pb GREEN)

/-- One source row's three output rows: the per-column groups transposed
into row `3r`, row `3r+1`, row `3r+2`. -/
def encodeRowPair (color_order : List Color) (fr br : List Color) :
    Except PyError (List (List Color)) :=
  match exMap (fun p => pixelGroup color_order p.1 p.2) (fr.zip br) with
  | .ok groups =>
      .ok [groups.map (fun grp => grp.getD 0 (0, 0, 0)),
           groups.map (fun grp => grp.getD 1 (0, 0, 0)),
           groups.map (fun grp => grp.getD 2 (0, 0, 0))]
  | .error e => .error e

/-- The function `img2jacquard(front_img, back_img, color_order)`: asserts the palette
has 3 entries and the shapes agree, then encodes every source pixel into
a 3-row output group. -/
def img2jacquard (front_img back_img : Grid) (color_order : List Color) :
    Except PyError Grid :=
  if color_order.length = 3 then
    if front_img.height = back_img.height ∧ front_img.width = back_img.width then
      match exMap (fun rp => encodeRowPair color_order rp.1 rp.2)
          (front_img.rows.zip back_img.rows) with
      | .ok triples => .ok ⟨triples.flatten⟩
      | .error e => .error e
    else .error .assertionError
  else .error .assertionError

example : img2jacquard ⟨[[(12, 88, 17)]]⟩ ⟨[[(12, 88, 17)]]⟩ default_color_order
    = .ok ⟨[[BLUE], [YELLOW], [BLUE]]⟩ := rfl

example : img2jacquard ⟨[[(1, 194, 83)]]⟩ ⟨[[(255, 142, 246)]]⟩ default_color_order
    = .ok ⟨[[RED], [BLUE], [GREEN]]⟩ := rfl

/-- The conversion `cv2.cvtColor(img, cv2.COLOR_BGR2RGB)`: reverse each pixel's
channel triple. -/
def cvtColor_BGR2RGB (g : Grid) : Grid :=
  ⟨g.rows.map (fun row => row.map (fun p => (p.2.2, p.2.1, p.1)))⟩

/-- The function `read_image(img_path)`: the filesystem is modelled as a map from
path to the stored (BGR) grid; the function reads the hard-coded path
`"data/celasala_3.bmp"` — its `img_path` argument is never used — and
converts the result from BGR to RGB. -/
def read_image (fs : String → Grid) (img_path : String) : Grid :=
  cvtColor_BGR2RGB (fs "data/celasala_3.bmp")

/-- Distinct-color scan with an accumulator of already-seen colors. -/
def firstOccAux (seen : List Color) : List Color → List Color
  | [] => []
  | x :: xs => if x ∈ seen then firstOccAux seen xs else x :: firstOccAux (x :: seen) xs

/-- The distinct colors of `l` in order of first occurrence
(the iteration order of a Python dict keyed by the pixels, and the
element set of `np.unique`). -/
def firstOcc (l : List Color) : List Color := firstOccAux [] l

/-- Position of the first occurrence of `c` in `l` (length of `l` when
absent): the raster-scan rank used by the tie-break law. -/
def rasterIndex (c : Color) : List Color → Nat
  | [] => 0
  | x :: xs => if x = c then 0 else rasterIndex c xs + 1

/-- Number of occurrences of the color `c` in `l`. -/
def colorCount (l : List Color) (c : Color) : Nat :=
  match l with
  | [] => 0
  | x :: xs => colorCount xs c + if x = c then 1 else 0

/-- Lexicographic order on color triples, the row order used by
`np.unique(..., axis=0)` on a pixel array. -/
def colorLe (a b : Color) : Bool :=
  decide (a.1 < b.1) ||
    (decide (a.1 = b.1) &&
      (decide (a.2.1 < b.2.1) ||
        (decide (a.2.1 = b.2.1) && decide (a.2.2 ≤ b.2.2))))

/-- Insert into a `colorLe`-sorted list. -/
def insLex (x : Color) : List Color → List Color
  | [] => [x]
  | y :: ys => if colorLe x y then x :: y :: ys else y :: insLex x ys

/-- Sort colors lexicographically (insertion sort). -/
def sortLex : List Color → List Color
  | [] => []
  | x :: xs => insLex x (sortLex xs)

/-- The call `np.unique(arr.reshape(-1, 3), axis=0)`: the distinct colors of the
pixel list, in lexicographically sorted order. -/
def np_unique (l : List Color) : List Color := sortLex (firstOcc l)

/-- The per-color occurrence counts of the pixel list, keyed in
first-occurrence order — the content and iteration order of the
`color_counts` dict built by `detect_colors_from_image`. -/
def countsList (l : List Color) : List (Color × Nat) :=
  (firstOcc l).map (fun c => (c, colorCount l c))

/-- Stable descending insertion by count: `p` is placed before the
first entry whose count is `≤ p`'s, so earlier entries win ties. -/
def insertByCount (p : Color × Nat) : List (Color × Nat) → List (Color × Nat)
  | [] => [p]
  | q :: rest => if q.2 ≤ p.2 then p :: q :: rest else q :: insertByCount p rest

/-- Stable sort by descending count — the behaviour of Python's stable
`sorted(color_counts.items(), key=lambda x: x[1], reverse=True)`. -/
def sortByCountDesc : List (Color × Nat) → List (Color × Nat)
  | [] => []
  | x :: xs => insertByCount x (sortByCountDesc xs)

/-- The default filler colors of `detect_colors_from_image`. -/
def default_colors : List Color := [(1, 194, 83), (12, 88, 17), (255, 142, 246)]

/-- One step of the default-padding loop: append `d` when fewer than 3
colors are collected and `d` is not already present. -/
def padStep (acc : List Color) (d : Color) : List Color :=
  if acc.length < 3 ∧ d ∉ acc then acc ++ [d] else acc

/-- The method `detect_colors_from_image(image_array)` from `gui.py`: with exactly
3 distinct colors return `np.unique`'s sorted list; with more than 3,
return the 3 most frequent (stable-sorted descending by count, dict
order — i.e. first-occurrence order — breaking ties); with fewer than
3, pad `np.unique`'s sorted list with the default fillers not already
present. -/
def detect_colors_from_image (g : Grid) : List Color :=
  let px := g.pixels
  let unique_colors := np_unique px
  if unique_colors.length = 3 then
    unique_colors
  else if 3 < unique_colors.length then
    ((sortByCountDesc (countsList px)).take 3).map Prod.fst
  else
    (default_colors.foldl padStep unique_colors).take 3

example :
    detect_colors_from_image ⟨[[(5, 5, 5), (0, 0, 0)]]⟩
      = [(0, 0, 0), (5, 5, 5), (1, 194, 83)] := by decide

example :
    detect_colors_from_image ⟨[[(9, 9, 9), (2, 2, 2), (9, 9, 9), (1, 1, 1)],
                               [(1, 1, 1), (7, 7, 7), (2, 2, 2), (9, 9, 9)]]⟩
      = [(9, 9, 9), (2, 2, 2), (1, 1, 1)] := by decide

/-- Test whether every sampled index for the `(H, W)`-shaped
`random_indices` array is a legal row index into the unique-color
array: `numpy` fancy indexing raises `IndexError` otherwise. -/
def allIndicesOk (csLen H W : Nat) (sample : Nat → Nat → Fin 3) : Bool :=
  (List.range H).all (fun r => (List.range W).all (fun c => (sample r c : Nat) < csLen))

/-- The function `generate_noise_like(img)`: take the lexicographically sorted
distinct colors, draw an `(H, W)` array of indices via
`np.random.choice(3, ...)` — modelled by the explicit `sample`
argument, whose values always lie in `{0,1,2}` — and index the color
array with them.  An index beyond the number of distinct colors is a
fancy-indexing `IndexError`. -/
def generate_noise_like (img : Grid) (sample : Nat → Nat → Fin 3) :
    Except PyError Grid :=
  if allIndicesOk (np_unique img.pixels).length img.height img.width sample then
    .ok ⟨(List.range img.height).map (fun r =>
      (List.range img.width).map
        (fun c => (np_unique img.pixels).getD (sample r c) (0, 0, 0)))⟩
  else
    .error .indexError

example :
    generate_noise_like ⟨[[(0, 0, 0)]]⟩ (fun _ _ => 1) = .error .indexError := rfl

example :
    generate_noise_like ⟨[[(3, 3, 3), (0, 0, 0)], [(0, 0, 0), (7, 7, 7)]]⟩ (fun _ c => ⟨c % 3, by omega⟩)
      = .ok ⟨[[(0, 0, 0), (3, 3, 3)], [(0, 0, 0), (3, 3, 3)]]⟩ := rfl

/-! ### Lemmas about `firstIndex` and `tupleIndex` -/

theorem firstIndex_eq_none_iff (c : Color) (l : List Color) :
    firstIndex c l = none ↔ c ∉ l := by
  induction l with
  | nil => simp [firstIndex]
  | cons x xs ih =>
    by_cases h : x = c
    · subst h; simp [firstIndex]
    · simp [firstIndex, h, ih, Ne.symm h]

theorem firstIndex_some (c : Color) (l : List Color) (i : Nat)
    (h : firstIndex c l = some i) : i < l.length ∧ l.getD i (0, 0, 0) = c := by
  induction l generalizing i with
  | nil => simp [firstIndex] at h
  | cons x xs ih =>
    by_cases hx : x = c
    · subst hx
      simp [firstIndex] at h
      subst h
      simp
    · simp [firstIndex, hx] at h
      obtain ⟨j, hj, rfl⟩ := h
      obtain ⟨h1, h2⟩ := ih j hj
      refine ⟨by simpa using h1, by simpa using h2⟩

theorem firstIndex_getD_of_nodup (l : List Color) (hnd : l.Nodup) (k : Nat)
    (hk : k < l.length) : firstIndex (l.getD k (0, 0, 0)) l = some k := by
  induction l generalizing k with
  | nil => simp at hk
  | cons x xs ih =>
    match k with
    | 0 => simp [firstIndex]
    | k + 1 =>
      have hk' : k < xs.length := by simpa using hk
      have hmem : xs.getD k (0, 0, 0) ∈ xs := by
        rw [List.getD_eq_getElem _ _ hk']
        exact List.getElem_mem hk'
      have hne : x ≠ xs.getD k (0, 0, 0) := by
        intro he
        exact (List.nodup_cons.mp hnd).1 (he ▸ hmem)
      rw [List.getD_cons_succ, firstIndex, if_neg hne,
        ih (List.nodup_cons.mp hnd).2 k hk']
      rfl

theorem tupleIndex_error_of_not_mem (l : List Color) (c : Color) (h : c ∉ l) :
    tupleIndex l c = .error tupleIndexError := by
  simp [tupleIndex, (firstIndex_eq_none_iff c l).mpr h]

theorem tupleIndex_ok_of_mem (l : List Color) (c : Color) (h : c ∈ l) :
    ∃ i, tupleIndex l c = .ok i := by
  rcases he : firstIndex c l with _ | i
  · exact absurd ((firstIndex_eq_none_iff c l).mp he) (by simpa using h)
  · exact ⟨i, by simp [tupleIndex, he]⟩

theorem tupleIndex_getD_of_nodup (l : List Color) (hnd : l.Nodup) (k : Nat)
    (hk : k < l.length) : tupleIndex l (l.getD k (0, 0, 0)) = .ok k := by
  unfold tupleIndex
  rw [firstIndex_getD_of_nodup l hnd k hk]

theorem tupleIndex_error_eq (l : List Color) (c : Color) (e : PyError)
    (h : tupleIndex l c = .error e) : e = tupleIndexError := by
  unfold tupleIndex at h
  rcases he : firstIndex c l with _ | i <;> rw [he] at h
  · exact (Except.error.inj h).symm
  · exact Except.noConfusion h

/-! ### Lemmas about `exMap` -/

theorem exMap_ok {α β E : Type} (f : α → Except E β) (da : α) (db : β) :
    ∀ (l : List α) (ys : List β), exMap f l = .ok ys →
      ys.length = l.length ∧
      ∀ i, i < l.length → f (l.getD i da) = .ok (ys.getD i db) := by
  intro l
  induction l with
  | nil =>
    intro ys h
    simp [exMap] at h
    subst h
    exact ⟨rfl, by intro i hi; simp at hi⟩
  | cons x xs ih =>
    intro ys h
    rcases hfx : f x with e | y <;> rw [exMap, hfx] at h
    · exact Except.noConfusion h
    · rcases hxs : exMap f xs with e | ys' <;> rw [hxs] at h
      · exact Except.noConfusion h
      · have hys : y :: ys' = ys := Except.ok.inj h
        subst hys
        obtain ⟨hlen, hpt⟩ := ih ys' hxs
        refine ⟨by simp [hlen], ?_⟩
        intro i hi
        match i with
        | 0 => simpa using hfx
        | i + 1 => exact hpt i (by simpa using hi)

theorem exMap_ok_of_forall {α β E : Type} (f : α → Except E β) (l : List α)
    (h : ∀ x ∈ l, ∃ y, f x = .ok y) : ∃ ys, exMap f l = .ok ys := by
  induction l with
  | nil => exact ⟨[], rfl⟩
  | cons x xs ih =>
    obtain ⟨y, hy⟩ := h x (List.mem_cons_self x xs)
    obtain ⟨ys, hys⟩ := ih (fun z hz => h z (List.mem_cons_of_mem x hz))
    exact ⟨y :: ys, by rw [exMap, hy, hys]⟩

theorem exMap_error_of {α β E : Type} (f : α → Except E β) (E0 : E) (l : List α)
    (honly : ∀ x ∈ l, ∀ e, f x = .error e → e = E0)
    (hbad : ∃ x ∈ l, ∃ e, f x = .error e) :
    exMap f l = .error E0 := by
  induction l with
  | nil => simp at hbad
  | cons x xs ih =>
    rcases hfx : f x with e | y
    · have : e = E0 := honly x (List.mem_cons_self x xs) e hfx
      subst this
      rw [exMap, hfx]
    · have hbad' : ∃ z ∈ xs, ∃ e, f z = .error e := by
        obtain ⟨z, hz, e, he⟩ := hbad
        rcases List.mem_cons.mp hz with rfl | hz'
        · rw [hfx] at he; exact Except.noConfusion he
        · exact ⟨z, hz', e, he⟩
      have := ih (fun z hz => honly z (List.mem_cons_of_mem x hz)) hbad'
      rw [exMap, hfx, this]

theorem exMap_error_only {α β E : Type} (f : α → Except E β) (E0 : E) (l : List α)
    (honly : ∀ x ∈ l, ∀ e, f x = .error e → e = E0) :
    ∀ e, exMap f l = .error e → e = E0 := by
  induction l with
  | nil => intro e h; simp [exMap] at h
  | cons x xs ih =>
    intro e h
    rcases hfx : f x with e' | y <;> rw [exMap, hfx] at h
    · exact (Except.error.inj h).symm ▸ honly x (List.mem_cons_self x xs) e' hfx
    · rcases hxs : exMap f xs with e' | ys <;> rw [hxs] at h
      · exact (Except.error.inj h).symm ▸
          ih (fun z hz => honly z (List.mem_cons_of_mem x hz)) e' hxs
      · exact Except.noConfusion h

/-! ### Lemmas about `pixelGroup` -/

theorem pixelGroup_length (pal : List Color) (f b : Color) (grp : List Color)
    (h : pixelGroup pal f b = .ok grp) : grp.length = 3 := by
  unfold pixelGroup at h
  by_cases hfb : f = b
  · rw [if_pos hfb] at h
    rcases h1 : tupleIndex pal f with e | p <;> rw [h1] at h
    · exact Except.noConfusion h
    · rw [← Except.ok.inj h]; simp
  · rw [if_neg hfb] at h
    rcases h1 : tupleIndex pal f with e | pf <;> rw [h1] at h
    · exact Except.noConfusion h
    · rcases h2 : tupleIndex pal b with e | pb <;> rw [h2] at h
      · exact Except.noConfusion h
      · rw [← Except.ok.inj h]; simp

theorem pixelGroup_ok_of_mem (pal : List Color) (f b : Color)
    (hf : f ∈ pal) (hb : b ∈ pal) : ∃ grp, pixelGroup pal f b = .ok grp := by
  unfold pixelGroup
  obtain ⟨pf, hpf⟩ := tupleIndex_ok_of_mem pal f hf
  obtain ⟨pb, hpb⟩ := tupleIndex_ok_of_mem pal b hb
  by_cases hfb : f = b
  · rw [if_pos hfb, hpf]
    exact ⟨_, rfl⟩
  · rw [if_neg hfb, hpf, hpb]
    exact ⟨_, rfl⟩

theorem pixelGroup_error_eq (pal : List Color) (f b : Color) (e : PyError)
    (h : pixelGroup pal f b = .error e) : e = tupleIndexError := by
  unfold pixelGroup at h
  by_cases hfb : f = b
  · rw [if_pos hfb] at h
    rcases h1 : tupleIndex pal f with e' | p <;> rw [h1] at h
    · exact (Except.error.inj h).symm ▸ tupleIndex_error_eq pal f e' h1
    · exact Except.noConfusion h
  · rw [if_neg hfb] at h
    rcases h1 : tupleIndex pal f with e' | pf <;> rw [h1] at h
    · exact (Except.error.inj h).symm ▸ tupleIndex_error_eq pal f e' h1
    · rcases h2 : tupleIndex pal b with e' | pb <;> rw [h2] at h
      · exact (Except.error.inj h).symm ▸ tupleIndex_error_eq pal b e' h2
      · exact Except.noConfusion h

theorem pixelGroup_error_of_not_mem (pal : List Color) (f b : Color)
    (h : f ∉ pal ∨ b ∉ pal) : pixelGroup pal f b = .error tupleIndexError := by
  unfold pixelGroup
  by_cases hfb : f = b
  · subst hfb
    have hf : f ∉ pal := by rcases h with h | h <;> exact h
    rw [if_pos rfl, tupleIndex_error_of_not_mem pal f hf]
  · rw [if_neg hfb]
    by_cases hf : f ∈ pal
    · have hb : b ∉ pal := by
        rcases h with h | h
        · exact absurd hf h
        · exact h
      obtain ⟨pf, hpf⟩ := tupleIndex_ok_of_mem pal f hf
      rw [hpf, tupleIndex_error_of_not_mem pal b hb]
    · rw [tupleIndex_error_of_not_mem pal f hf]

theorem pixelGroup_same (pal : List Color) (hnd : pal.Nodup) (k : Nat)
    (hk : k < pal.length) :
    pixelGroup pal (pal.getD k (0, 0, 0)) (pal.getD k (0, 0, 0))
      = .ok (([BLUE, BLUE, BLUE]).set k YELLOW) := by
  unfold pixelGroup
  rw [if_pos rfl, tupleIndex_getD_of_nodup pal hnd k hk]

theorem pixelGroup_diff (pal : List Color) (hnd : pal.Nodup) (k1 k2 : Nat)
    (hk1 : k1 < pal.length) (hk2 : k2 < pal.length) (hne : k1 ≠ k2) :
    pixelGroup pal (pal.getD k1 (0, 0, 0)) (pal.getD k2 (0, 0, 0))
      = .ok ((([BLUE, BLUE, BLUE]).set k1 RED).set k2 GREEN) := by
  have hcne : pal.getD k1 (0, 0, 0) ≠ pal.getD k2 (0, 0, 0) := by
    intro he
    apply hne
    have h1 := firstIndex_getD_of_nodup pal hnd k1 hk1
    have h2 := firstIndex_getD_of_nodup pal hnd k2 hk2
    rw [he] at h1
    exact Option.some.inj (h1.symm.trans h2)
  unfold pixelGroup
  rw [if_neg hcne, tupleIndex_getD_of_nodup pal hnd k1 hk1,
    tupleIndex_getD_of_nodup pal hnd k2 hk2]

/-! ### Lemmas about `encodeRowPair` -/

theorem encodeRowPair_ok_of_mem (pal : List Color) (fr br : List Color)
    (hf : ∀ x ∈ fr, x ∈ pal) (hb : ∀ x ∈ br, x ∈ pal) :
    ∃ t, encodeRowPair pal fr br = .ok t := by
  obtain ⟨groups, hg⟩ := exMap_ok_of_forall (fun p => pixelGroup pal p.1 p.2) (fr.zip br)
    (by
      intro p hp
      have hmem := List.of_mem_zip hp
      exact pixelGroup_ok_of_mem pal p.1 p.2 (hf _ hmem.1) (hb _ hmem.2))
  unfold encodeRowPair
  rw [hg]
  exact ⟨_, rfl⟩

theorem encodeRowPair_shape (pal : List Color) (fr br : List Color)
    (t : List (List Color)) (h : encodeRowPair pal fr br = .ok t) :
    t.length = 3 ∧ ∀ row ∈ t, row.length = (fr.zip br).length := by
  unfold encodeRowPair at h
  rcases hg : exMap (fun p => pixelGroup pal p.1 p.2) (fr.zip br) with e | groups <;>
    rw [hg] at h
  · exact Except.noConfusion h
  · rw [← Except.ok.inj h]
    have hlen := (exMap_ok _ ((0, 0, 0), (0, 0, 0)) [] _ _ hg).1
    constructor
    · rfl
    · intro row hrow
      simp at hrow
      rcases hrow with rfl | rfl | rfl <;> simp [hlen]

theorem encodeRowPair_error_eq (pal : List Color) (fr br : List Color) (e : PyError)
    (h : encodeRowPair pal fr br = .error e) : e = tupleIndexError := by
  unfold encodeRowPair at h
  rcases hg : exMap (fun p => pixelGroup pal p.1 p.2) (fr.zip br) with e' | groups <;>
    rw [hg] at h
  · refine (Except.error.inj h).symm ▸ ?_
    exact exMap_error_only _ tupleIndexError _
      (fun p _ e'' he'' => pixelGroup_error_eq pal p.1 p.2 e'' he'') e' hg
  · exact Except.noConfusion h

theorem encodeRowPair_error_of_bad (pal : List Color) (fr br : List Color)
    (j : Nat) (hj : j < (fr.zip br).length)
    (hbad : fr.getD j (0, 0, 0) ∉ pal ∨ br.getD j (0, 0, 0) ∉ pal) :
    encodeRowPair pal fr br = .error tupleIndexError := by
  have hjf : j < fr.length := lt_of_lt_of_le hj (by simp [List.length_zip])
  have hjb : j < br.length := lt_of_lt_of_le hj (by simp [List.length_zip])
  have hpair : (fr.zip br).getD j ((0, 0, 0), (0, 0, 0))
      = (fr.getD j (0, 0, 0), br.getD j (0, 0, 0)) := by
    rw [List.getD_eq_getElem _ _ hj, List.getElem_zip,
      List.getD_eq_getElem _ _ hjf, List.getD_eq_getElem _ _ hjb]
  have hmem : (fr.zip br).getD j ((0, 0, 0), (0, 0, 0)) ∈ fr.zip br := by
    rw [List.getD_eq_getElem _ _ hj]
    exact List.getElem_mem hj
  have herr : pixelGroup pal ((fr.zip br).getD j ((0, 0, 0), (0, 0, 0))).1
      ((fr.zip br).getD j ((0, 0, 0), (0, 0, 0))).2 = .error tupleIndexError := by
    rw [hpair]
    exact pixelGroup_error_of_not_mem pal _ _ hbad
  have := exMap_error_of (fun p => pixelGroup pal p.1 p.2) tupleIndexError (fr.zip br)
    (fun p _ e he => pixelGroup_error_eq pal p.1 p.2 e he)
    ⟨_, hmem, _, herr⟩
  unfold encodeRowPair
  rw [this]

theorem encodeRowPair_cell (pal : List Color) (fr br : List Color)
    (t : List (List Color)) (h : encodeRowPair pal fr br = .ok t)
    (o c : Nat) (ho : o < 3) (hc : c < (fr.zip br).length) :
    ∃ grp, pixelGroup pal (fr.getD c (0, 0, 0)) (br.getD c (0, 0, 0)) = .ok grp ∧
      (t.getD o []).getD c (0, 0, 0) = grp.getD o (0, 0, 0) := by
  have hcf : c < fr.length := lt_of_lt_of_le hc (by simp [List.length_zip])
  have hcb : c < br.length := lt_of_lt_of_le hc (by simp [List.length_zip])
  unfold encodeRowPair at h
  rcases hg : exMap (fun p => pixelGroup pal p.1 p.2) (fr.zip br) with e | groups <;>
    rw [hg] at h
  · exact Except.noConfusion h
  · obtain ⟨hlen, hpt⟩ := exMap_ok _ ((0, 0, 0), (0, 0, 0)) [] _ _ hg
    have hcg : c < groups.length := hlen ▸ hc
    have hpair : (fr.zip br).getD c ((0, 0, 0), (0, 0, 0))
        = (fr.getD c (0, 0, 0), br.getD c (0, 0, 0)) := by
      rw [List.getD_eq_getElem _ _ hc, List.getElem_zip,
        List.getD_eq_getElem _ _ hcf, List.getD_eq_getElem _ _ hcb]
    have hgrp := hpt c hc
    rw [hpair] at hgrp
    refine ⟨groups.getD c [], hgrp, ?_⟩
    rw [← Except.ok.inj h]
    have hmap : ∀ o' : Nat,
        ((groups.map (fun grp => grp.getD o' (0, 0, 0))).getD c (0, 0, 0))
          = (groups.getD c []).getD o' (0, 0, 0) := by
      intro o'
      rw [List.getD_eq_getElem _ _ (by simpa using hcg), List.getElem_map,
        List.getD_eq_getElem _ _ hcg]
    match o with
    | 0 => exact hmap 0
    | 1 => exact hmap 1
    | 2 => exact hmap 2

/-! ### Lemmas about flattening the row triples -/

theorem flatten_length_three (l : List (List (List Color)))
    (h : ∀ t ∈ l, t.length = 3) : l.flatten.length = 3 * l.length := by
  induction l with
  | nil => simp
  | cons t rest ih =>
    have ht : t.length = 3 := h t (List.mem_cons_self t rest)
    have := ih (fun u hu => h u (List.mem_cons_of_mem t hu))
    simp only [List.flatten_cons, List.length_append, List.length_cons, this, ht]
    omega

theorem flatten_getD_three (l : List (List (List Color))) (r o : Nat)
    (h : ∀ t ∈ l, t.length = 3) (hr : r < l.length) (ho : o < 3) :
    l.flatten.getD (3 * r + o) [] = (l.getD r []).getD o [] := by
  induction l generalizing r with
  | nil => simp at hr
  | cons t rest ih =>
    have ht : t.length = 3 := h t (List.mem_cons_self t rest)
    match r with
    | 0 =>
      simp only [Nat.mul_zero, Nat.zero_add, List.flatten_cons, List.getD_cons_zero]
      exact List.getD_append _ _ _ _ (by omega)
    | r + 1 =>
      have hr' : r < rest.length := by simpa using hr
      have harith : 3 * (r + 1) + o = t.length + (3 * r + o) := by omega
      rw [List.flatten_cons, harith, List.getD_cons_succ]
      rw [List.getD_append_right _ _ _ _ (Nat.le_add_right _ _), Nat.add_sub_cancel_left]
      exact ih r (fun u hu => h u (List.mem_cons_of_mem t hu)) hr'

/-! ### Grid lemmas -/

theorem Grid.cell_mem_pixels (g : Grid) (hrect : g.Rect) (r c : Nat)
    (hr : r < g.height) (hc : c < g.width) : g.cell r c ∈ g.pixels := by
  have hr' : r < g.rows.length := hr
  have hrow : g.rows.getD r [] ∈ g.rows := by
    rw [List.getD_eq_getElem _ _ hr']
    exact List.getElem_mem hr'
  have hlen : (g.rows.getD r []).length = g.width := hrect _ hrow
  have hclen : c < (g.rows.getD r []).length := by rw [hlen]; exact hc
  have hcell : g.cell r c ∈ g.rows.getD r [] := by
    unfold Grid.cell
    rw [List.getD_eq_getElem _ _ hclen]
    exact List.getElem_mem hclen
  exact List.mem_flatten.mpr ⟨_, hrow, hcell⟩

theorem Grid.width_eq_of_rect (g : Grid) (hrect : g.Rect) (r : Nat)
    (hr : r < g.height) : (g.rows.getD r []).length = g.width := by
  apply hrect
  rw [List.getD_eq_getElem _ _ hr]
  exact List.getElem_mem hr

/-! ### The master lemma for `img2jacquard` on conforming inputs -/

/-- All preconditions of the encoding: 3-entry distinct palette,
rectangular equal-shape grids, all pixels palette members. -/
def Conforming (front back : Grid) (pal : List Color) : Prop :=
  pal.length = 3 ∧ pal.Nodup ∧ front.Rect ∧ back.Rect ∧
    front.height = back.height ∧ front.width = back.width ∧
    (∀ p ∈ front.pixels, p ∈ pal) ∧ (∀ p ∈ back.pixels, p ∈ pal)

instance (front back : Grid) (pal : List Color) :
    Decidable (Conforming front back pal) := by
  unfold Conforming; infer_instance

theorem img2jacquard_conforming (front back : Grid) (pal : List Color)
    (h : Conforming front back pal) :
    ∃ out, img2jacquard front back pal = .ok out ∧
      out.height = 3 * front.height ∧ out.width = front.width ∧
      ∀ r c, r < front.height → c < front.width → ∀ o, o < 3 →
        ∃ grp, pixelGroup pal (front.cell r c) (back.cell r c) = .ok grp ∧
          out.cell (3 * r + o) c = grp.getD o (0, 0, 0) := by
  obtain ⟨h3, hnd, hrf, hrb, hh, hw, hpf, hpb⟩ := h
  have hzlen : (front.rows.zip back.rows).length = front.height := by
    simp [List.length_zip, Grid.height] at hh ⊢
    omega
  -- every row pair encodes successfully
  have hrows : ∀ rp ∈ front.rows.zip back.rows,
      ∃ t, encodeRowPair pal rp.1 rp.2 = .ok t := by
    intro rp hrp
    obtain ⟨hm1, hm2⟩ := List.of_mem_zip hrp
    refine encodeRowPair_ok_of_mem pal rp.1 rp.2 ?_ ?_
    · intro x hx
      exact hpf x (List.mem_flatten.mpr ⟨rp.1, hm1, hx⟩)
    · intro x hx
      exact hpb x (List.mem_flatten.mpr ⟨rp.2, hm2, hx⟩)
  obtain ⟨triples, htr⟩ := exMap_ok_of_forall _ _ hrows
  obtain ⟨htlen, htpt⟩ := exMap_ok _ ([], []) [] _ _ htr
  have htr3 : ∀ t ∈ triples, t.length = 3 := by
    intro t ht
    obtain ⟨i, hi, hti⟩ := List.getElem_of_mem ht
    have hiz : i < (front.rows.zip back.rows).length := by omega
    have hipt := htpt i hiz
    have htD : triples.getD i [] = t := by
      rw [List.getD_eq_getElem _ _ hi, hti]
    rw [htD] at hipt
    exact (encodeRowPair_shape _ _ _ _ hipt).1
  refine ⟨⟨triples.flatten⟩, ?_, ?_, ?_, ?_⟩
  · unfold img2jacquard
    rw [if_pos h3, if_pos ⟨hh, hw⟩, htr]
  · show triples.flatten.length = 3 * front.height
    rw [flatten_length_three triples htr3, htlen, hzlen]
  · -- width
    show (triples.flatten.headD []).length = front.width
    match hfr : front.rows, hbr : back.rows with
    | [], _ =>
      have : front.height = 0 := by simp [Grid.height, hfr]
      have h0 : triples = [] := by
        have := htlen
        rw [hfr] at this
        simp [List.length_zip] at this
        exact List.length_eq_zero.mp (by omega)
      rw [h0]
      simp [Grid.width, hfr]
    | fr0 :: frrest, [] =>
      have : front.height = back.height := hh
      simp [Grid.height, hfr, hbr] at this
    | fr0 :: frrest, br0 :: brrest =>
      have h1 : 0 < triples.length := by
        rw [htlen, hfr, hbr]
        simp [List.length_zip]
      have hpt0 := htpt 0 (by omega : 0 < (front.rows.zip back.rows).length)
      have hz0 : (front.rows.zip back.rows).getD 0 ([], []) = (fr0, br0) := by
        rw [hfr, hbr]; rfl
      rw [hz0] at hpt0
      obtain ⟨ht3, hrowlen⟩ := encodeRowPair_shape pal fr0 br0 _ hpt0
      have ht0 : triples.getD 0 [] ∈ triples := by
        rw [List.getD_eq_getElem _ _ h1]
        exact List.getElem_mem h1
      -- the first output row is the first row of the first triple
      have hflat : triples.flatten.headD [] = (triples.getD 0 []).getD 0 [] := by
        have h00 := flatten_getD_three triples 0 0 htr3 h1 (by omega)
        simp only [Nat.mul_zero, Nat.zero_add] at h00
        rw [← h00]
        cases hfl : triples.flatten <;> rfl
      rw [hflat]
      have hmem0 : (triples.getD 0 []).getD 0 [] ∈ triples.getD 0 [] := by
        rw [List.getD_eq_getElem _ _ (by omega : 0 < (triples.getD 0 []).length)]
        exact List.getElem_mem _
      have := hrowlen _ hmem0
      rw [this]
      have hfr0len : fr0.length = front.width := by
        have := hrf fr0 (by rw [hfr]; exact List.mem_cons_self _ _)
        exact this
      have hbr0len : br0.length = back.width := by
        have := hrb br0 (by rw [hbr]; exact List.mem_cons_self _ _)
        exact this
      simp [List.length_zip, hfr0len, hbr0len, ← hw]
  · intro r c hr hc o ho
    have hrz : r < (front.rows.zip back.rows).length := by rw [hzlen]; exact hr
    have hptr := htpt r hrz
    have hzr : (front.rows.zip back.rows).getD r ([], []) =
        (front.rows.getD r [], back.rows.getD r []) := by
      have hrf' : r < front.rows.length := hr
      have hrb' : r < back.rows.length := by
        have hlen' : front.rows.length = back.rows.length := hh
        omega
      rw [List.getD_eq_getElem _ _ hrz, List.getElem_zip,
        List.getD_eq_getElem _ _ hrf', List.getD_eq_getElem _ _ hrb']
    rw [hzr] at hptr
    have hcz : c < ((front.rows.getD r []).zip (back.rows.getD r [])).length := by
      have h1 := Grid.width_eq_of_rect front hrf r hr
      have h2 := Grid.width_eq_of_rect back hrb r (by
        have h' : front.rows.length = back.rows.length := hh
        have h'' : r < front.rows.length := hr
        show r < back.rows.length
        omega)
      rw [List.length_zip, h1, h2, ← hw, Nat.min_self]
      exact hc
    obtain ⟨grp, hgrp, hcell⟩ := encodeRowPair_cell pal _ _ _ hptr o c ho hcz
    refine ⟨grp, hgrp, ?_⟩
    show (⟨triples.flatten⟩ : Grid).cell (3 * r + o) c = grp.getD o (0, 0, 0)
    unfold Grid.cell
    show (triples.flatten.getD (3 * r + o) []).getD c (0, 0, 0) = grp.getD o (0, 0, 0)
    rw [flatten_getD_three triples r o htr3 (by rw [htlen]; exact hrz) ho]
    exact hcell

/-! ### Claim theorems for the encoder -/

/-- C1: for every conforming input and every source pixel `(r,c)` with
`front[r,c] == back[r,c] == palette[k]`, the output row-group at rows
`3r..3r+2` in column `c` contains BOTH (YELLOW) at offset `k` and
BACKGROUND (BLUE) at the other two offsets. -/
theorem C1_same_color_both_at_offset (front back : Grid) (pal : List Color)
    (h : Conforming front back pal) (r c k : Nat)
    (hr : r < front.height) (hc : c < front.width) (hk : k < 3)
    (hf : front.cell r c = pal.getD k (0, 0, 0))
    (hb : back.cell r c = pal.getD k (0, 0, 0)) :
    ∃ out, img2jacquard front back pal = .ok out ∧
      ∀ o, o < 3 → out.cell (3 * r + o) c = if o = k then YELLOW else BLUE := by
  obtain ⟨out, hok, _, _, hcell⟩ := img2jacquard_conforming front back pal h
  refine ⟨out, hok, ?_⟩
  intro o ho
  obtain ⟨grp, hgrp, hoc⟩ := hcell r c hr hc o ho
  rw [hf, hb, pixelGroup_same pal h.2.1 k (by rw [h.1]; exact hk)] at hgrp
  have hgrp' := Except.ok.inj hgrp
  rw [hoc, ← hgrp']
  interval_cases k <;> interval_cases o <;> decide

/-- Witness for C1: a 1×1 grid whose single pixel is `palette[1]` on
both faces encodes to the 3×1 column BLUE, YELLOW, BLUE. -/
theorem C1_witness :
    ∃ out, img2jacquard ⟨[[(12, 88, 17)]]⟩ ⟨[[(12, 88, 17)]]⟩ default_color_order
        = .ok out ∧
      ∀ o, o < 3 → out.cell (3 * 0 + o) 0 = if o = 1 then YELLOW else BLUE :=
  C1_same_color_both_at_offset ⟨[[(12, 88, 17)]]⟩ ⟨[[(12, 88, 17)]]⟩
    default_color_order (by decide) 0 0 1 (by decide) (by decide) (by decide)
    (by decide) (by decide)

/-- C2: for every conforming input and every source pixel `(r,c)` with
`front[r,c] == palette[k1]`, `back[r,c] == palette[k2]`, `k1 ≠ k2`, the
output row-group contains FRONT_ONLY (RED) at offset `k1`, BACK_ONLY
(GREEN) at offset `k2`, BACKGROUND (BLUE) at the remaining offset; the
group is produced by writing RED first and GREEN second. -/
theorem C2_diff_colors_front_back_offsets (front back : Grid) (pal : List Color)
    (h : Conforming front back pal) (r c k1 k2 : Nat)
    (hr : r < front.height) (hc : c < front.width)
    (hk1 : k1 < 3) (hk2 : k2 < 3) (hkne : k1 ≠ k2)
    (hf : front.cell r c = pal.getD k1 (0, 0, 0))
    (hb : back.cell r c = pal.getD k2 (0, 0, 0)) :
    ∃ out, img2jacquard front back pal = .ok out ∧
      pixelGroup pal (front.cell r c) (back.cell r c)
        = .ok ((([BLUE, BLUE, BLUE]).set k1 RED).set k2 GREEN) ∧
      ∀ o, o < 3 → out.cell (3 * r + o) c
        = if o = k1 then RED else if o = k2 then GREEN else BLUE := by
  obtain ⟨out, hok, _, _, hcell⟩ := img2jacquard_conforming front back pal h
  have hpg : pixelGroup pal (front.cell r c) (back.cell r c)
      = .ok ((([BLUE, BLUE, BLUE]).set k1 RED).set k2 GREEN) := by
    rw [hf, hb]
    exact pixelGroup_diff pal h.2.1 k1 k2 (by rw [h.1]; exact hk1)
      (by rw [h.1]; exact hk2) hkne
  refine ⟨out, hok, hpg, ?_⟩
  intro o ho
  obtain ⟨grp, hgrp, hoc⟩ := hcell r c hr hc o ho
  rw [hpg] at hgrp
  have hgrp' := Except.ok.inj hgrp
  rw [hoc, ← hgrp']
  interval_cases k1 <;> interval_cases k2 <;> first
    | exact absurd rfl hkne
    | (interval_cases o <;> decide)

/-- Witness for C2: front pixel `palette[0]`, back pixel `palette[2]` →
the 3×1 output column RED, BLUE, GREEN, with RED written before GREEN. -/
theorem C2_witness :
    ∃ out, img2jacquard ⟨[[(1, 194, 83)]]⟩ ⟨[[(255, 142, 246)]]⟩ default_color_order
        = .ok out ∧
      pixelGroup default_color_order
          ((⟨[[(1, 194, 83)]]⟩ : Grid).cell 0 0) ((⟨[[(255, 142, 246)]]⟩ : Grid).cell 0 0)
        = .ok ((([BLUE, BLUE, BLUE]).set 0 RED).set 2 GREEN) ∧
      ∀ o, o < 3 → out.cell (3 * 0 + o) 0
        = if o = 0 then RED else if o = 2 then GREEN else BLUE :=
  C2_diff_colors_front_back_offsets ⟨[[(1, 194, 83)]]⟩ ⟨[[(255, 142, 246)]]⟩
    default_color_order (by decide) 0 0 0 2 (by decide) (by decide) (by decide)
    (by decide) (by decide) (by decide) (by decide)

/-- C3: on every conforming input the encoder returns a grid of height
exactly `3 *` the front grid's height and width equal to the front
grid's width. -/
theorem C3_output_shape (front back : Grid) (pal : List Color)
    (h : Conforming front back pal) :
    ∃ out, img2jacquard front back pal = .ok out ∧
      out.height = 3 * front.height ∧ out.width = front.width := by
  obtain ⟨out, hok, hH, hW, _⟩ := img2jacquard_conforming front back pal h
  exact ⟨out, hok, hH, hW⟩

/-- Witness for C3: a 2×2 conforming input yields a 6×2 output. -/
theorem C3_witness :
    ∃ out, img2jacquard ⟨[[(1, 194, 83), (12, 88, 17)], [(255, 142, 246), (1, 194, 83)]]⟩
        ⟨[[(12, 88, 17), (12, 88, 17)], [(1, 194, 83), (255, 142, 246)]]⟩
        default_color_order = .ok out ∧
      out.height = 3 * (⟨[[(1, 194, 83), (12, 88, 17)], [(255, 142, 246), (1, 194, 83)]]⟩ : Grid).height ∧
      out.width = (⟨[[(1, 194, 83), (12, 88, 17)], [(255, 142, 246), (1, 194, 83)]]⟩ : Grid).width :=
  C3_output_shape _ _ default_color_order (by decide)

/-- Counterexample to C4: two calls whose offending pixels differ in
coordinate — `(0,0)` with color `(9,9,9)` versus `(0,1)` with color
`(8,8,8)` — produce the *identical* error value, the fixed
`ValueError` of `tuple.index`; the error therefore reports neither the
coordinate nor the offending color. -/
theorem C4_counterexample :
    img2jacquard ⟨[[(9, 9, 9)]]⟩ ⟨[[(1, 194, 83)]]⟩ default_color_order
        = .error tupleIndexError ∧
      img2jacquard ⟨[[(1, 194, 83), (8, 8, 8)]]⟩ ⟨[[(1, 194, 83), (1, 194, 83)]]⟩
        default_color_order = .error tupleIndexError := ⟨rfl, rfl⟩

/-- C4 as amended: with a 3-entry palette and equal-shape rectangular
grids, any source pixel (front or back) whose color is not in the
palette makes the call fail — but with the fixed, coordinate-free and
color-free `ValueError` message of Python's `tuple.index`. -/
theorem C4_amended_not_in_palette_raises (front back : Grid) (pal : List Color)
    (h3 : pal.length = 3) (hh : front.height = back.height)
    (hw : front.width = back.width) (hrf : front.Rect) (hrb : back.Rect)
    (r c : Nat) (hr : r < front.height) (hc : c < front.width)
    (hbad : front.cell r c ∉ pal ∨ back.cell r c ∉ pal) :
    img2jacquard front back pal = .error tupleIndexError := by
  have hzlen : (front.rows.zip back.rows).length = front.height := by
    simp [List.length_zip, Grid.height] at hh ⊢
    omega
  have hrz : r < (front.rows.zip back.rows).length := by rw [hzlen]; exact hr
  have hrf' : r < front.rows.length := hr
  have hrb' : r < back.rows.length := by
    have hlen' : front.rows.length = back.rows.length := hh
    omega
  have hzr : (front.rows.zip back.rows).getD r ([], []) =
      (front.rows.getD r [], back.rows.getD r []) := by
    rw [List.getD_eq_getElem _ _ hrz, List.getElem_zip,
      List.getD_eq_getElem _ _ hrf', List.getD_eq_getElem _ _ hrb']
  have hcz : c < ((front.rows.getD r []).zip (back.rows.getD r [])).length := by
    have h1 := Grid.width_eq_of_rect front hrf r hr
    have h2 := Grid.width_eq_of_rect back hrb r (by
      have h' : front.rows.length = back.rows.length := hh
      show r < back.rows.length
      omega)
    rw [List.length_zip, h1, h2, ← hw, Nat.min_self]
    exact hc
  have hrowerr : encodeRowPair pal (front.rows.getD r []) (back.rows.getD r [])
      = .error tupleIndexError :=
    encodeRowPair_error_of_bad pal _ _ c hcz hbad
  have hmem : (front.rows.zip back.rows).getD r ([], []) ∈ front.rows.zip back.rows := by
    rw [List.getD_eq_getElem _ _ hrz]
    exact List.getElem_mem hrz
  have hexmap := exMap_error_of (fun rp => encodeRowPair pal rp.1 rp.2)
    tupleIndexError (front.rows.zip back.rows)
    (fun rp _ e he => encodeRowPair_error_eq pal rp.1 rp.2 e he)
    ⟨_, hmem, tupleIndexError, by rw [hzr]; exact hrowerr⟩
  unfold img2jacquard
  rw [if_pos h3, if_pos ⟨hh, hw⟩, hexmap]

/-- Witness for the amended C4: a front pixel `(9,9,9)` outside the
default palette makes the call fail with the fixed `ValueError`. -/
theorem C4_amended_witness :
    img2jacquard ⟨[[(9, 9, 9)]]⟩ ⟨[[(1, 194, 83)]]⟩ default_color_order
      = .error tupleIndexError :=
  C4_amended_not_in_palette_raises ⟨[[(9, 9, 9)]]⟩ ⟨[[(1, 194, 83)]]⟩
    default_color_order (by decide) (by decide) (by decide) (by decide) (by decide)
    0 0 (by decide) (by decide) (Or.inl (by decide))

/-- Counterexample to C5: a palette of length 3 with a duplicated color
is *not* rejected — the encoder happily returns a result. -/
theorem C5_counterexample :
    img2jacquard ⟨[[(0, 0, 0)]]⟩ ⟨[[(0, 0, 0)]]⟩ [(0, 0, 0), (0, 0, 0), (1, 1, 1)]
      = .ok ⟨[[YELLOW], [BLUE], [BLUE]]⟩ := rfl

/-- C5 as amended: the encoder fails with an `AssertionError` whenever
the palette length differs from 3 or the grids differ in height or
width; palette distinctness is not checked. -/
theorem C5_amended_asserts (front back : Grid) (pal : List Color)
    (h : pal.length ≠ 3 ∨ front.height ≠ back.height ∨ front.width ≠ back.width) :
    img2jacquard front back pal = .error .assertionError := by
  unfold img2jacquard
  by_cases h3 : pal.length = 3
  · rw [if_pos h3]
    have hns : ¬(front.height = back.height ∧ front.width = back.width) := by
      rcases h with h | h | h
      · exact absurd h3 h
      · exact fun hand => h hand.1
      · exact fun hand => h hand.2
    rw [if_neg hns]
  · rw [if_neg h3]

/-- Witness for the amended C5: a 2×2 front with a 2×3 back is rejected
by the shape assertion. -/
theorem C5_amended_witness :
    img2jacquard ⟨[[(0, 0, 0), (0, 0, 0)], [(0, 0, 0), (0, 0, 0)]]⟩
      ⟨[[(0, 0, 0), (0, 0, 0), (0, 0, 0)], [(0, 0, 0), (0, 0, 0), (0, 0, 0)]]⟩
      default_color_order = .error .assertionError :=
  C5_amended_asserts _ _ default_color_order (Or.inr (Or.inr (by decide)))

/-- C10: `read_image`'s result is independent of its `img_path`
argument — for any filesystem contents and any two paths, the same
grid (the pixels of the fixed file `data/celasala_3.bmp`, converted
BGR→RGB) is returned. -/
theorem C10_read_image_ignores_path (fs : String → Grid) (p1 p2 : String) :
    read_image fs p1 = read_image fs p2 := rfl

/-! ### Lemmas about `firstOcc`, `sortLex` and `np_unique` -/

theorem mem_firstOccAux (x : Color) :
    ∀ (l seen : List Color), x ∈ firstOccAux seen l ↔ x ∈ l ∧ x ∉ seen := by
  intro l
  induction l with
  | nil => intro seen; simp [firstOccAux]
  | cons y ys ih =>
    intro seen
    by_cases hy : y ∈ seen
    · rw [firstOccAux, if_pos hy, ih]
      constructor
      · rintro ⟨h1, h2⟩
        exact ⟨List.mem_cons_of_mem _ h1, h2⟩
      · rintro ⟨h1, h2⟩
        rcases List.mem_cons.mp h1 with rfl | h1'
        · exact absurd hy h2
        · exact ⟨h1', h2⟩
    · rw [firstOccAux, if_neg hy, List.mem_cons, ih (y :: seen)]
      constructor
      · rintro (rfl | ⟨h1, h2⟩)
        · exact ⟨List.mem_cons_self _ _, hy⟩
        · exact ⟨List.mem_cons_of_mem _ h1,
            fun hs => h2 (List.mem_cons_of_mem _ hs)⟩
      · rintro ⟨h1, h2⟩
        by_cases hxy : x = y
        · exact Or.inl hxy
        · right
          have h1' : x ∈ ys := by
            rcases List.mem_cons.mp h1 with h | h
            · exact absurd h hxy
            · exact h
          exact ⟨h1', fun hs => (List.mem_cons.mp hs).elim hxy h2⟩

theorem nodup_firstOccAux : ∀ (l seen : List Color), (firstOccAux seen l).Nodup := by
  intro l
  induction l with
  | nil => intro seen; simp [firstOccAux]
  | cons y ys ih =>
    intro seen
    by_cases hy : y ∈ seen
    · rw [firstOccAux, if_pos hy]
      exact ih seen
    · rw [firstOccAux, if_neg hy]
      refine List.nodup_cons.mpr ⟨?_, ih (y :: seen)⟩
      intro hmem
      exact ((mem_firstOccAux y ys (y :: seen)).mp hmem).2 (List.mem_cons_self _ _)

theorem pairwise_rasterIndex_firstOccAux :
    ∀ (l seen : List Color),
      (firstOccAux seen l).Pairwise (fun a b => rasterIndex a l < rasterIndex b l) := by
  intro l
  induction l with
  | nil => intro seen; simp [firstOccAux]
  | cons y ys ih =>
    intro seen
    by_cases hy : y ∈ seen
    · rw [firstOccAux, if_pos hy]
      refine (ih seen).imp_of_mem ?_
      intro a b ha hb hab
      have hna : a ≠ y := by
        intro he
        exact ((mem_firstOccAux a ys seen).mp ha).2 (he ▸ hy)
      have hnb : b ≠ y := by
        intro he
        exact ((mem_firstOccAux b ys seen).mp hb).2 (he ▸ hy)
      rw [rasterIndex, if_neg (fun h => hna h.symm), rasterIndex,
        if_neg (fun h => hnb h.symm)]
      omega
    · rw [firstOccAux, if_neg hy]
      refine List.pairwise_cons.mpr ⟨?_, ?_⟩
      · intro b hb
        have hnb : b ≠ y :=
          fun he => ((mem_firstOccAux b ys (y :: seen)).mp hb).2
            (he ▸ List.mem_cons_self _ _)
        rw [rasterIndex, if_pos rfl, rasterIndex, if_neg (fun h => hnb h.symm)]
        omega
      · refine (ih (y :: seen)).imp_of_mem ?_
        intro a b ha hb hab
        have hna : a ≠ y :=
          fun he => ((mem_firstOccAux a ys (y :: seen)).mp ha).2
            (he ▸ List.mem_cons_self _ _)
        have hnb : b ≠ y :=
          fun he => ((mem_firstOccAux b ys (y :: seen)).mp hb).2
            (he ▸ List.mem_cons_self _ _)
        rw [rasterIndex, if_neg (fun h => hna h.symm), rasterIndex,
          if_neg (fun h => hnb h.symm)]
        omega

theorem mem_firstOcc (x : Color) (l : List Color) : x ∈ firstOcc l ↔ x ∈ l := by
  unfold firstOcc
  rw [mem_firstOccAux]
  simp

theorem nodup_firstOcc (l : List Color) : (firstOcc l).Nodup :=
  nodup_firstOccAux l []

theorem pairwise_rasterIndex_firstOcc (l : List Color) :
    (firstOcc l).Pairwise (fun a b => rasterIndex a l < rasterIndex b l) :=
  pairwise_rasterIndex_firstOccAux l []

theorem insLex_perm (x : Color) (l : List Color) : List.Perm (insLex x l) (x :: l) := by
  induction l with
  | nil => rfl
  | cons y ys ih =>
    rw [insLex]
    by_cases h : colorLe x y
    · rw [if_pos h]
    · rw [if_neg h]
      exact (ih.cons y).trans (List.Perm.swap x y ys)

theorem sortLex_perm (l : List Color) : List.Perm (sortLex l) l := by
  induction l with
  | nil => rfl
  | cons x xs ih =>
    rw [sortLex]
    exact (insLex_perm x (sortLex xs)).trans (ih.cons x)

theorem np_unique_perm_firstOcc (l : List Color) : List.Perm (np_unique l) (firstOcc l) :=
  sortLex_perm (firstOcc l)

theorem mem_np_unique (x : Color) (l : List Color) : x ∈ np_unique l ↔ x ∈ l := by
  rw [(np_unique_perm_firstOcc l).mem_iff]
  exact mem_firstOcc x l

theorem np_unique_length (l : List Color) :
    (np_unique l).length = (firstOcc l).length :=
  (np_unique_perm_firstOcc l).length_eq

theorem nodup_np_unique (l : List Color) : (np_unique l).Nodup :=
  ((np_unique_perm_firstOcc l).nodup_iff).mpr (nodup_firstOcc l)

/-! ### Lemmas about the stable descending sort -/

theorem insertByCount_perm (p : Color × Nat) (l : List (Color × Nat)) :
    List.Perm (insertByCount p l) (p :: l) := by
  induction l with
  | nil => rfl
  | cons q rest ih =>
    rw [insertByCount]
    by_cases h : q.2 ≤ p.2
    · rw [if_pos h]
    · rw [if_neg h]
      exact (ih.cons q).trans (List.Perm.swap p q rest)

theorem sortByCountDesc_perm (l : List (Color × Nat)) : List.Perm (sortByCountDesc l) l := by
  induction l with
  | nil => rfl
  | cons x xs ih =>
    rw [sortByCountDesc]
    exact (insertByCount_perm x (sortByCountDesc xs)).trans (ih.cons x)

theorem insertByCount_pairwise (T : (Color × Nat) → (Color × Nat) → Prop)
    (p : Color × Nat) :
    ∀ L : List (Color × Nat),
      L.Pairwise (fun a b => b.2 < a.2 ∨ (a.2 = b.2 ∧ T a b)) →
      (∀ q ∈ L, T p q) →
      (insertByCount p L).Pairwise (fun a b => b.2 < a.2 ∨ (a.2 = b.2 ∧ T a b)) := by
  intro L
  induction L with
  | nil => intro _ _; simp [insertByCount]
  | cons q rest ih =>
    intro hL hT
    rw [insertByCount]
    by_cases h : q.2 ≤ p.2
    · rw [if_pos h]
      refine List.pairwise_cons.mpr ⟨?_, hL⟩
      intro b hb
      rcases List.mem_cons.mp hb with rfl | hb'
      · rcases Nat.lt_or_ge b.2 p.2 with hlt | hge
        · exact Or.inl hlt
        · exact Or.inr ⟨by omega, hT b (List.mem_cons_self _ _)⟩
      · have hqb := (List.pairwise_cons.mp hL).1 b hb'
        rcases hqb with hlt | ⟨heq, _⟩
        · rcases Nat.lt_or_ge b.2 p.2 with hlt' | hge'
          · exact Or.inl hlt'
          · exact Or.inr ⟨by omega, hT b (List.mem_cons_of_mem _ hb')⟩
        · rcases Nat.lt_or_ge b.2 p.2 with hlt' | hge'
          · exact Or.inl hlt'
          · exact Or.inr ⟨by omega, hT b (List.mem_cons_of_mem _ hb')⟩
    · rw [if_neg h]
      refine List.pairwise_cons.mpr ⟨?_, ?_⟩
      · intro b hb
        rcases List.mem_cons.mp ((insertByCount_perm p rest).mem_iff.mp hb) with
          rfl | hb'
        · exact Or.inl (by omega)
        · exact (List.pairwise_cons.mp hL).1 b hb'
      · exact ih (List.pairwise_cons.mp hL).2
          (fun z hz => hT z (List.mem_cons_of_mem _ hz))

/-- A stable descending sort of a list whose original order satisfies
`T` pairwise is pairwise ordered by "strictly greater count, or equal
count and originally earlier". -/
theorem sortByCountDesc_pairwise (T : (Color × Nat) → (Color × Nat) → Prop) :
    ∀ L : List (Color × Nat), L.Pairwise T →
      (sortByCountDesc L).Pairwise (fun a b => b.2 < a.2 ∨ (a.2 = b.2 ∧ T a b)) := by
  intro L
  induction L with
  | nil => intro _; simp [sortByCountDesc]
  | cons x xs ih =>
    intro hL
    rw [sortByCountDesc]
    refine insertByCount_pairwise T x (sortByCountDesc xs)
      (ih (List.pairwise_cons.mp hL).2) ?_
    intro q hq
    exact (List.pairwise_cons.mp hL).1 q ((sortByCountDesc_perm xs).mem_iff.mp hq)

/-! ### Lemmas about `countsList` -/

theorem mem_countsList (l : List Color) (p : Color × Nat) (hp : p ∈ countsList l) :
    p.1 ∈ l ∧ p.2 = colorCount l p.1 := by
  unfold countsList at hp
  obtain ⟨c, hc, hcp⟩ := List.mem_map.mp hp
  rw [← hcp]
  exact ⟨(mem_firstOcc c l).mp hc, rfl⟩

theorem countsList_length (l : List Color) :
    (countsList l).length = (firstOcc l).length := by
  simp [countsList]

theorem countsList_map_fst (l : List Color) :
    (countsList l).map Prod.fst = firstOcc l := by
  unfold countsList
  rw [List.map_map]
  exact List.map_id _

theorem countsList_pairwise (l : List Color) :
    (countsList l).Pairwise
      (fun a b => rasterIndex a.1 l < rasterIndex b.1 l) := by
  unfold countsList
  rw [List.pairwise_map]
  exact pairwise_rasterIndex_firstOcc l

theorem mem_countsList_of_mem (l : List Color) (y : Color) (hy : y ∈ l) :
    (y, colorCount l y) ∈ countsList l := by
  unfold countsList
  exact List.mem_map.mpr ⟨y, (mem_firstOcc y l).mpr hy, rfl⟩

/-! ### Claim theorem C6 -/

/-- C6: for every grid with more than 3 distinct colors,
`detect_colors_from_image` returns exactly 3 pairwise-distinct colors
of the image, and every returned color beats every non-returned image
color: strictly higher occurrence count, or an equal count and a
strictly earlier first occurrence in raster scan order. -/
theorem C6_top3_by_count_raster_tiebreak (g : Grid)
    (h : 3 < (np_unique g.pixels).length) :
    (detect_colors_from_image g).length = 3 ∧
    (detect_colors_from_image g).Nodup ∧
    (∀ x ∈ detect_colors_from_image g, x ∈ g.pixels) ∧
    (∀ x ∈ detect_colors_from_image g, ∀ y ∈ g.pixels,
      y ∉ detect_colors_from_image g →
        colorCount g.pixels y < colorCount g.pixels x ∨
          (colorCount g.pixels y = colorCount g.pixels x ∧
            rasterIndex x g.pixels < rasterIndex y g.pixels)) := by
  have hbranch : detect_colors_from_image g
      = ((sortByCountDesc (countsList g.pixels)).take 3).map Prod.fst := by
    unfold detect_colors_from_image
    rw [if_neg (by omega), if_pos h]
  have hperm := sortByCountDesc_perm (countsList g.pixels)
  have hslen : (sortByCountDesc (countsList g.pixels)).length
      = (countsList g.pixels).length := hperm.length_eq
  have hlen3 : 3 < (sortByCountDesc (countsList g.pixels)).length := by
    rw [hslen, countsList_length, ← np_unique_length]
    exact h
  have hmapfst : List.Perm ((sortByCountDesc (countsList g.pixels)).map Prod.fst)
      (firstOcc g.pixels) := by
    rw [← countsList_map_fst]
    exact hperm.map Prod.fst
  refine ⟨?_, ?_, ?_, ?_⟩
  · rw [hbranch]
    simp [List.length_take]
    omega
  · rw [hbranch, List.map_take]
    exact (List.take_sublist 3 _).nodup (hmapfst.nodup_iff.mpr (nodup_firstOcc _))
  · intro x hx
    rw [hbranch] at hx
    obtain ⟨p, hp, rfl⟩ := List.mem_map.mp hx
    have hps : p ∈ sortByCountDesc (countsList g.pixels) := List.mem_of_mem_take hp
    exact (mem_countsList g.pixels p (hperm.mem_iff.mp hps)).1
  · intro x hx y hy hyn
    rw [hbranch] at hx hyn
    obtain ⟨p, hp, rfl⟩ := List.mem_map.mp hx
    have hpc : p ∈ countsList g.pixels :=
      hperm.mem_iff.mp (List.mem_of_mem_take hp)
    have hpcc : p.2 = colorCount g.pixels p.1 := (mem_countsList _ _ hpc).2
    -- the pair for `y` sits in the dropped part of the sorted list
    have hq : (y, colorCount g.pixels y) ∈ sortByCountDesc (countsList g.pixels) :=
      hperm.mem_iff.mpr (mem_countsList_of_mem g.pixels y hy)
    have hqdrop : (y, colorCount g.pixels y)
        ∈ (sortByCountDesc (countsList g.pixels)).drop 3 := by
      have hsplit := List.take_append_drop 3 (sortByCountDesc (countsList g.pixels))
      rcases List.mem_append.mp (by rw [hsplit]; exact hq) with htk | hdr
      · exact absurd (List.mem_map.mpr ⟨_, htk, rfl⟩) hyn
      · exact hdr
    have hpair := sortByCountDesc_pairwise
      (fun a b => rasterIndex a.1 g.pixels < rasterIndex b.1 g.pixels)
      (countsList g.pixels) (countsList_pairwise g.pixels)
    have hsplit := List.take_append_drop 3 (sortByCountDesc (countsList g.pixels))
    rw [← hsplit] at hpair
    have hS := (List.pairwise_append.mp hpair).2.2 p hp _ hqdrop
    rcases hS with hlt | ⟨heq, hT⟩
    · left
      rw [← hpcc]
      exact hlt
    · right
      exact ⟨by rw [← hpcc]; exact heq.symm, hT⟩

/-- Witness for C6: a 2×4 grid with 4 distinct colors — counts
`(9,9,9) ↦ 3`, `(2,2,2) ↦ 2`, `(1,1,1) ↦ 2`, `(7,7,7) ↦ 1` — satisfies
all four conjuncts of the top-3 law (the `(2,2,2)`/`(1,1,1)` tie is
broken by first raster occurrence). -/
theorem C6_witness :
    (detect_colors_from_image
        ⟨[[(9, 9, 9), (2, 2, 2), (9, 9, 9), (1, 1, 1)],
          [(1, 1, 1), (7, 7, 7), (2, 2, 2), (9, 9, 9)]]⟩).length = 3 ∧
    (detect_colors_from_image
        ⟨[[(9, 9, 9), (2, 2, 2), (9, 9, 9), (1, 1, 1)],
          [(1, 1, 1), (7, 7, 7), (2, 2, 2), (9, 9, 9)]]⟩).Nodup ∧
    (∀ x ∈ detect_colors_from_image
        ⟨[[(9, 9, 9), (2, 2, 2), (9, 9, 9), (1, 1, 1)],
          [(1, 1, 1), (7, 7, 7), (2, 2, 2), (9, 9, 9)]]⟩,
      x ∈ (⟨[[(9, 9, 9), (2, 2, 2), (9, 9, 9), (1, 1, 1)],
          [(1, 1, 1), (7, 7, 7), (2, 2, 2), (9, 9, 9)]]⟩ : Grid).pixels) ∧
    (∀ x ∈ detect_colors_from_image
        ⟨[[(9, 9, 9), (2, 2, 2), (9, 9, 9), (1, 1, 1)],
          [(1, 1, 1), (7, 7, 7), (2, 2, 2), (9, 9, 9)]]⟩,
      ∀ y ∈ (⟨[[(9, 9, 9), (2, 2, 2), (9, 9, 9), (1, 1, 1)],
          [(1, 1, 1), (7, 7, 7), (2, 2, 2), (9, 9, 9)]]⟩ : Grid).pixels,
        y ∉ detect_colors_from_image
          ⟨[[(9, 9, 9), (2, 2, 2), (9, 9, 9), (1, 1, 1)],
            [(1, 1, 1), (7, 7, 7), (2, 2, 2), (9, 9, 9)]]⟩ →
          colorCount (⟨[[(9, 9, 9), (2, 2, 2), (9, 9, 9), (1, 1, 1)],
              [(1, 1, 1), (7, 7, 7), (2, 2, 2), (9, 9, 9)]]⟩ : Grid).pixels y
              < colorCount (⟨[[(9, 9, 9), (2, 2, 2), (9, 9, 9), (1, 1, 1)],
              [(1, 1, 1), (7, 7, 7), (2, 2, 2), (9, 9, 9)]]⟩ : Grid).pixels x ∨
            (colorCount (⟨[[(9, 9, 9), (2, 2, 2), (9, 9, 9), (1, 1, 1)],
              [(1, 1, 1), (7, 7, 7), (2, 2, 2), (9, 9, 9)]]⟩ : Grid).pixels y
              = colorCount (⟨[[(9, 9, 9), (2, 2, 2), (9, 9, 9), (1, 1, 1)],
              [(1, 1, 1), (7, 7, 7), (2, 2, 2), (9, 9, 9)]]⟩ : Grid).pixels x ∧
              rasterIndex x (⟨[[(9, 9, 9), (2, 2, 2), (9, 9, 9), (1, 1, 1)],
              [(1, 1, 1), (7, 7, 7), (2, 2, 2), (9, 9, 9)]]⟩ : Grid).pixels
                < rasterIndex y (⟨[[(9, 9, 9), (2, 2, 2), (9, 9, 9), (1, 1, 1)],
              [(1, 1, 1), (7, 7, 7), (2, 2, 2), (9, 9, 9)]]⟩ : Grid).pixels)) :=
  C6_top3_by_count_raster_tiebreak
    ⟨[[(9, 9, 9), (2, 2, 2), (9, 9, 9), (1, 1, 1)],
      [(1, 1, 1), (7, 7, 7), (2, 2, 2), (9, 9, 9)]]⟩ (by decide)

/-! ### Lemmas about the default-color padding loop -/

theorem padFold_of_full : ∀ (D : List Color) (acc : List Color),
    acc.length = 3 → D.foldl padStep acc = acc := by
  intro D
  induction D with
  | nil => intro acc _; rfl
  | cons d D' ih =>
    intro acc hacc
    rw [List.foldl_cons]
    have hstep : padStep acc d = acc := by
      unfold padStep
      rw [if_neg]
      rintro ⟨h1, _⟩
      omega
    rw [hstep]
    exact ih acc hacc

theorem padFold_formula : ∀ (D : List Color), D.Nodup → ∀ acc : List Color,
    acc.length ≤ 3 →
    D.foldl padStep acc
      = (acc ++ D.filter (fun d => decide (d ∉ acc))).take 3 := by
  intro D
  induction D with
  | nil =>
    intro _ acc hacc
    simp only [List.foldl_nil, List.filter_nil, List.append_nil]
    exact (List.take_of_length_le hacc).symm
  | cons d D' ih =>
    intro hnd acc hacc
    have hdD : d ∉ D' := (List.nodup_cons.mp hnd).1
    have hndD : D'.Nodup := (List.nodup_cons.mp hnd).2
    rw [List.foldl_cons]
    by_cases hlen3 : acc.length = 3
    · rw [show padStep acc d = acc by
        unfold padStep; rw [if_neg]; rintro ⟨h1, _⟩; omega]
      rw [padFold_of_full D' acc hlen3,
        List.take_append_of_le_length (le_of_eq hlen3.symm),
        List.take_of_length_le (le_of_eq hlen3)]
    · have hlt : acc.length < 3 := by omega
      by_cases hd : d ∈ acc
      · rw [show padStep acc d = acc by
          unfold padStep; rw [if_neg]; rintro ⟨_, h2⟩; exact h2 hd]
        rw [ih hndD acc hacc]
        congr 2
        rw [List.filter_cons]
        simp [hd]
      · rw [show padStep acc d = acc ++ [d] by
          unfold padStep; rw [if_pos ⟨hlt, hd⟩]]
        rw [ih hndD (acc ++ [d]) (by simp; omega)]
        rw [List.filter_cons]
        simp only [hd, not_false_eq_true, decide_eq_true_eq, if_pos trivial]
        rw [List.append_assoc, List.singleton_append]
        congr 3
        apply List.filter_congr
        intro x hx
        have hxd : x ≠ d := fun he => hdD (he ▸ hx)
        simp [List.mem_append, hxd]

theorem filter_mem_split (u : List Color) : ∀ l : List Color,
    (l.filter (fun x => decide (x ∈ u))).length
      + (l.filter (fun x => decide (x ∉ u))).length = l.length := by
  intro l
  induction l with
  | nil => rfl
  | cons x xs ih =>
    rw [List.filter_cons, List.filter_cons]
    by_cases hx : x ∈ u
    · rw [if_pos (decide_eq_true hx), if_neg (by simp [hx])]
      simp only [List.length_cons]
      omega
    · rw [if_neg (by simp [hx]), if_pos (decide_eq_true hx)]
      simp only [List.length_cons]
      omega

/-! ### Claim theorems C7 -/

/-- Counterexample to C7: for the 1×2 grid `[(5,5,5),(0,0,0)]` the
raster-first-occurrence order of the distinct colors is
`[(5,5,5),(0,0,0)]`, but `detect_colors_from_image` starts from
`np.unique`'s lexicographically sorted list and returns
`[(0,0,0),(5,5,5),(1,194,83)]`, not `[(5,5,5),(0,0,0),(1,194,83)]`. -/
theorem C7_counterexample :
    firstOcc (Grid.pixels ⟨[[(5, 5, 5), (0, 0, 0)]]⟩) = [(5, 5, 5), (0, 0, 0)] ∧
    detect_colors_from_image ⟨[[(5, 5, 5), (0, 0, 0)]]⟩
      = [(0, 0, 0), (5, 5, 5), (1, 194, 83)] ∧
    detect_colors_from_image ⟨[[(5, 5, 5), (0, 0, 0)]]⟩
      ≠ [(5, 5, 5), (0, 0, 0), (1, 194, 83)] := by decide

/-- C7 as amended: for every grid with fewer than 3 distinct colors,
`detect_colors_from_image` returns exactly 3 colors and never fails:
it starts from the distinct colors in `np.unique`'s lexicographically
sorted order (not raster order) and appends the default fillers
`(1,194,83)`, `(12,88,17)`, `(255,142,246)` in that fixed order,
skipping any already present, until 3 colors are collected. -/
theorem C7_amended_pad_with_defaults (g : Grid)
    (h : (np_unique g.pixels).length < 3) :
    detect_colors_from_image g
      = (np_unique g.pixels
          ++ default_colors.filter (fun d => decide (d ∉ np_unique g.pixels))).take 3 ∧
    (detect_colors_from_image g).length = 3 := by
  have hbranch : detect_colors_from_image g
      = (default_colors.foldl padStep (np_unique g.pixels)).take 3 := by
    unfold detect_colors_from_image
    rw [if_neg (by omega), if_neg (by omega)]
  have hfold := padFold_formula default_colors (by decide) (np_unique g.pixels)
    (by omega)
  have heq : detect_colors_from_image g
      = (np_unique g.pixels
          ++ default_colors.filter (fun d => decide (d ∉ np_unique g.pixels))).take 3 := by
    rw [hbranch, hfold, List.take_take, Nat.min_self]
  refine ⟨heq, ?_⟩
  rw [heq, List.length_take]
  -- the kept defaults are distinct members of the unique list, so at
  -- least `3 - |unique|` defaults survive the filter
  have hsplit := filter_mem_split (np_unique g.pixels) default_colors
  have hsubl : (default_colors.filter
      (fun x => decide (x ∈ np_unique g.pixels))).length
      ≤ (np_unique g.pixels).length := by
    have hnd : (default_colors.filter
        (fun x => decide (x ∈ np_unique g.pixels))).Nodup :=
      List.Nodup.filter _ (by decide)
    have hsub : (default_colors.filter
        (fun x => decide (x ∈ np_unique g.pixels)))
        ⊆ np_unique g.pixels := by
      intro x hx
      exact of_decide_eq_true (List.mem_filter.mp hx).2
    exact (hnd.subperm hsub).length_le
  have hdc : default_colors.length = 3 := by decide
  rw [List.length_append]
  omega

/-- Witness for the amended C7: the 1×2 grid with 2 distinct colors
gets `np.unique`'s sorted colors plus the first default filler. -/
theorem C7_amended_witness :
    detect_colors_from_image ⟨[[(5, 5, 5), (0, 0, 0)]]⟩
      = (np_unique (Grid.pixels ⟨[[(5, 5, 5), (0, 0, 0)]]⟩)
          ++ default_colors.filter
            (fun d => decide (d ∉ np_unique (Grid.pixels ⟨[[(5, 5, 5), (0, 0, 0)]]⟩)))).take 3 ∧
    (detect_colors_from_image ⟨[[(5, 5, 5), (0, 0, 0)]]⟩).length = 3 :=
  C7_amended_pad_with_defaults ⟨[[(5, 5, 5), (0, 0, 0)]]⟩ (by decide)

/-! ### Lemmas about `generate_noise_like` -/

theorem allIndicesOk_true_of_ge (csLen H W : Nat) (sample : Nat → Nat → Fin 3)
    (h3 : 3 ≤ csLen) : allIndicesOk csLen H W sample = true := by
  unfold allIndicesOk
  rw [List.all_eq_true]
  intro r _
  rw [List.all_eq_true]
  intro c _
  exact decide_eq_true (by
    have := (sample r c).isLt
    omega)

theorem allIndicesOk_lt (csLen H W : Nat) (sample : Nat → Nat → Fin 3)
    (h : allIndicesOk csLen H W sample = true) (r c : Nat)
    (hr : r < H) (hc : c < W) : (sample r c : Nat) < csLen := by
  unfold allIndicesOk at h
  rw [List.all_eq_true] at h
  have h1 := h r (List.mem_range.mpr hr)
  rw [List.all_eq_true] at h1
  exact of_decide_eq_true (h1 c (List.mem_range.mpr hc))

theorem generate_noise_like_ok (img : Grid) (sample : Nat → Nat → Fin 3)
    (out : Grid) (hok : generate_noise_like img sample = .ok out) :
    allIndicesOk (np_unique img.pixels).length img.height img.width sample = true ∧
    out.height = img.height ∧ out.width = img.width ∧
    ∀ r c, r < img.height → c < img.width →
      out.cell r c = (np_unique img.pixels).getD (sample r c) (0, 0, 0) := by
  unfold generate_noise_like at hok
  by_cases hg :
      allIndicesOk (np_unique img.pixels).length img.height img.width sample = true
  · rw [if_pos hg] at hok
    have hout := Except.ok.inj hok
    refine ⟨hg, ?_, ?_, ?_⟩
    · rw [← hout]
      show ((List.range img.height).map _).length = img.height
      simp
    · rw [← hout]
      match hH : img.height with
      | 0 =>
        have hrows : img.rows = [] := List.length_eq_zero.mp hH
        simp [Grid.width, hrows]
      | n + 1 =>
        rw [List.range_succ_eq_map, List.map_cons]
        simp [Grid.width]
    · intro r c hr hc
      rw [← hout]
      show ((((List.range img.height).map _).getD r []).getD c (0, 0, 0)) = _
      have hr' : r < ((List.range img.height).map
          (fun r => (List.range img.width).map
            (fun c => (np_unique img.pixels).getD (sample r c) (0, 0, 0)))).length := by
        simpa using hr
      rw [List.getD_eq_getElem _ _ hr', List.getElem_map, List.getElem_range]
      have hc' : c < ((List.range img.width).map
          (fun c => (np_unique img.pixels).getD (sample r c) (0, 0, 0))).length := by
        simpa using hc
      rw [List.getD_eq_getElem _ _ hc', List.getElem_map, List.getElem_range]
  · rw [if_neg hg] at hok
    exact Except.noConfusion hok

/-! ### Claim theorems C8 and C9 -/

/-- Counterexample to C8: on a 1×1 grid with exactly 1 distinct color,
a sampled index of 1 (a value `np.random.choice(3, ...)` produces with
probability 2/3 per cell together with 2) is out of range for the
1-element unique-color array, and the call fails with an `IndexError`
instead of returning a constant grid. -/
theorem C8_counterexample :
    generate_noise_like ⟨[[(0, 0, 0)]]⟩ (fun _ _ => 1) = .error .indexError := rfl

/-- C8 as amended: whenever the reference grid has at least 3 distinct
colors (so every index `np.random.choice(3, ...)` can produce is in
range), `generate_noise_like` returns a grid of the same height and
width in which every cell's color is a member of the reference's
distinct-color set; with fewer than 3 distinct colors the call can
fail with an `IndexError`. -/
theorem C8_amended_noise_shape_and_colors (img : Grid)
    (h3 : 3 ≤ (np_unique img.pixels).length) (sample : Nat → Nat → Fin 3) :
    ∃ out, generate_noise_like img sample = .ok out ∧
      out.height = img.height ∧ out.width = img.width ∧
      ∀ r c, r < img.height → c < img.width → out.cell r c ∈ img.pixels := by
  have hg := allIndicesOk_true_of_ge (np_unique img.pixels).length
    img.height img.width sample h3
  have hok : generate_noise_like img sample
      = .ok ⟨(List.range img.height).map (fun r =>
          (List.range img.width).map
            (fun c => (np_unique img.pixels).getD (sample r c) (0, 0, 0)))⟩ := by
    unfold generate_noise_like
    rw [if_pos hg]
  obtain ⟨_, hH, hW, hcell⟩ := generate_noise_like_ok img sample _ hok
  refine ⟨_, hok, hH, hW, ?_⟩
  intro r c hr hc
  rw [hcell r c hr hc]
  have hlt : (sample r c : Nat) < (np_unique img.pixels).length := by
    have := (sample r c).isLt
    omega
  rw [List.getD_eq_getElem _ _ hlt]
  exact (mem_np_unique _ _).mp (List.getElem_mem hlt)

/-- Witness for the amended C8: a 1×3 reference with 3 distinct colors
and the constant index sample 0. -/
theorem C8_amended_witness :
    ∃ out, generate_noise_like ⟨[[(0, 0, 0), (1, 1, 1), (2, 2, 2)]]⟩ (fun _ _ => 0)
        = .ok out ∧
      out.height = (⟨[[(0, 0, 0), (1, 1, 1), (2, 2, 2)]]⟩ : Grid).height ∧
      out.width = (⟨[[(0, 0, 0), (1, 1, 1), (2, 2, 2)]]⟩ : Grid).width ∧
      ∀ r c, r < (⟨[[(0, 0, 0), (1, 1, 1), (2, 2, 2)]]⟩ : Grid).height →
        c < (⟨[[(0, 0, 0), (1, 1, 1), (2, 2, 2)]]⟩ : Grid).width →
        out.cell r c ∈ (⟨[[(0, 0, 0), (1, 1, 1), (2, 2, 2)]]⟩ : Grid).pixels :=
  C8_amended_noise_shape_and_colors ⟨[[(0, 0, 0), (1, 1, 1), (2, 2, 2)]]⟩
    (by decide) (fun _ _ => 0)

/-- Counterexample to C9: on a 1×4 reference with 4 distinct colors,
the lexicographically largest distinct color `(3,3,3)` is *not* a
possible value of the output cell `(0,0)` — no sampling can produce
it, because indices are drawn from `{0,1,2}` only. -/
theorem C9_counterexample :
    ¬ ∃ (sample : Nat → Nat → Fin 3) (out : Grid),
        generate_noise_like ⟨[[(0, 0, 0), (1, 1, 1), (2, 2, 2), (3, 3, 3)]]⟩ sample
            = .ok out ∧
          out.cell 0 0 = (3, 3, 3) := by
  rintro ⟨sample, out, hok, hcell⟩
  obtain ⟨_, _, _, hc⟩ := generate_noise_like_ok _ sample out hok
  have h00 := hc 0 0 (by decide) (by decide)
  rw [hcell] at h00
  have hcs : np_unique (Grid.pixels ⟨[[(0, 0, 0), (1, 1, 1), (2, 2, 2), (3, 3, 3)]]⟩)
      = [(0, 0, 0), (1, 1, 1), (2, 2, 2), (3, 3, 3)] := rfl
  rw [hcs] at h00
  have hn3 : ((sample 0 0 : Fin 3) : Nat) < 3 := (sample 0 0).isLt
  generalize hgen : ((sample 0 0 : Fin 3) : Nat) = n at h00 hn3
  interval_cases n <;> exact absurd h00 (by decide)

/-- C9 as amended: each output cell is drawn only from the *first 3*
entries of the lexicographically sorted distinct-color list — whenever
the call returns, every in-range cell's color lies in
`(np.unique colors).take 3`; distinct colors beyond the first three
can never appear. -/
theorem C9_amended_cells_from_first_three (img : Grid)
    (sample : Nat → Nat → Fin 3) (out : Grid)
    (hok : generate_noise_like img sample = .ok out) :
    ∀ r c, r < out.height → c < out.width →
      out.cell r c ∈ (np_unique img.pixels).take 3 := by
  obtain ⟨hg, hH, hW, hcell⟩ := generate_noise_like_ok img sample out hok
  intro r c hr hc
  rw [hH] at hr
  rw [hW] at hc
  rw [hcell r c hr hc]
  have hlt : (sample r c : Nat) < (np_unique img.pixels).length :=
    allIndicesOk_lt _ _ _ sample hg r c hr hc
  have h3 : (sample r c : Nat) < 3 := (sample r c).isLt
  have hgetD : ((np_unique img.pixels).take 3).getD ((sample r c : Fin 3) : Nat) (0, 0, 0)
      = (np_unique img.pixels).getD ((sample r c : Fin 3) : Nat) (0, 0, 0) := by
    simp only [List.getD]
    rw [List.get?_eq_getElem?, List.get?_eq_getElem?, List.getElem?_take_of_lt h3]
  rw [← hgetD]
  have hlen3 : (sample r c : Nat) < ((np_unique img.pixels).take 3).length := by
    rw [List.length_take]
    omega
  rw [List.getD_eq_getElem _ _ hlen3]
  exact List.getElem_mem hlen3

/-- Witness for the amended C9: the 1×4 four-color reference with the
constant index sample 2 — the produced cell `(2,2,2)` lies among the
first three sorted distinct colors. -/
theorem C9_amended_witness :
    (⟨[[(2, 2, 2), (2, 2, 2), (2, 2, 2), (2, 2, 2)]]⟩ : Grid).cell 0 1
      ∈ (np_unique (Grid.pixels
          ⟨[[(0, 0, 0), (1, 1, 1), (2, 2, 2), (3, 3, 3)]]⟩)).take 3 :=
  C9_amended_cells_from_first_three
    ⟨[[(0, 0, 0), (1, 1, 1), (2, 2, 2), (3, 3, 3)]]⟩ (fun _ _ => 2)
    ⟨[[(2, 2, 2), (2, 2, 2), (2, 2, 2), (2, 2, 2)]]⟩ rfl 0 1 (by decide) (by decide)
